import Mathlib

/-!
Verification development for the opskills protocol bridge.

The Go sources under internal/skill (router, registry, MCP adapter) and
internal/skill/mcp (protocol, client, server, connection) are embedded
shallowly: dynamically typed JSON payloads become the inductive JValue,
Go interface-typed request identifiers become GoValue (a value tagged
with its dynamic Go type, since Go map keys of interface type compare by
type and value), maps become association lists or functions to Option,
and process or file-system effects become explicit oracle parameters.
-/

/-- Dynamically typed JSON-like value, standing for the Go
map-of-interface payloads used throughout the source. -/
inductive JValue where
  | str : String → JValue
  | num : Int → JValue
  | bool : Bool → JValue
  | null : JValue
  | arr : List JValue → JValue
  | obj : List (String × JValue) → JValue

/-- Go fmt %v rendering of a payload value, as used by
DirectExecutor.prepareExecution to turn a parameter into a string.
Composite values use the Go bracket and map renderings. -/
def goFormat : JValue → String
  | JValue.str s => s
  | JValue.num i => toString i
  | JValue.bool b => if b then "true" else "false"
  | JValue.null => "<nil>"
  | JValue.arr xs => "[" ++ String.intercalate " " (xs.attach.map (fun x => goFormat x.1)) ++ "]"
  | JValue.obj kvs =>
      "map[" ++ String.intercalate " "
        (kvs.attach.map (fun kv => kv.1.1 ++ ":" ++ goFormat kv.1.2)) ++ "]"
decreasing_by
  · simp_wf
    have := List.sizeOf_lt_of_mem x.2
    omega
  · simp_wf
    obtain ⟨⟨a, b⟩, hmem⟩ := kv
    have := List.sizeOf_lt_of_mem hmem
    simp only [Prod.mk.sizeOf_spec] at this
    simp only []
    omega

/-- Go interface-typed value used as a request identifier. The client
stores identifiers with dynamic type int64; decoding JSON into an
interface field yields float64 for any number. Two GoValues are equal
exactly when both the dynamic type and the value agree, which is the
equality Go uses for interface-typed map keys. The float payload is
kept as the exact integer it encodes (identifiers are small integers,
far below the range where float64 loses integrality). -/
inductive GoValue where
  | int : Int → GoValue
  | float : Int → GoValue
  | str : String → GoValue
  | null : GoValue
deriving DecidableEq, Repr

/-- Encoding a GoValue to JSON and decoding it back into a Go interface
field: every number comes back as float64, strings stay strings. This is
what happens to the identifier of every envelope that crosses the wire. -/
def jsonRoundTripID : GoValue → GoValue
  | GoValue.int n => GoValue.float n
  | GoValue.float n => GoValue.float n
  | GoValue.str s => GoValue.str s
  | GoValue.null => GoValue.null

/-- JSONRPCError of protocol.go: integer code, message, optional data. -/
structure JSONRPCError where
  code : Int
  message : String
  data : Option JValue

/-- JSONRPCResponse of protocol.go: the identifier it answers and either
a result payload or an error. -/
structure JSONRPCResponse where
  id : GoValue
  result : Option JValue
  error : Option JSONRPCError

/-- JSONRPCRequest of protocol.go: identifier, method name, parameters. -/
structure JSONRPCRequest where
  id : GoValue
  method : String
  params : Option JValue

/-- Standard JSON-RPC error codes from protocol.go. -/
def ErrCodeParseError : Int := -32700

def ErrCodeInvalidRequest : Int := -32600

def ErrCodeMethodNotFound : Int := -32601

def ErrCodeInvalidParams : Int := -32602

def ErrCodeInternalError : Int := -32603

/-- Method name constants from protocol.go. -/
def MethodInitialize : String := "initialize"

def MethodInitialized : String := "initialized"

def MethodToolsList : String := "tools/list"

def MethodToolsCall : String := "tools/call"

def MethodResourcesList : String := "resources/list"

def MethodResourcesRead : String := "resources/read"

/-- NewJSONRPCError of protocol.go. -/
def NewJSONRPCError (code : Int) (message : String) (data : Option JValue) : JSONRPCError :=
  ⟨code, message, data⟩

/-- NewJSONRPCResponse of protocol.go: an error wins over a result. -/
def NewJSONRPCResponse (id : GoValue) (result : Option JValue) (err : Option JSONRPCError) :
    JSONRPCResponse :=
  match err with
  | some e => ⟨id, none, some e⟩
  | none => ⟨id, result, none⟩

/-! ## Client request correlator (client.go)

The client state is the pending-request table plus the identifier
counter. Each table entry carries the one-slot buffered response channel
of one in-flight Call: none is an empty channel, some r a channel
holding the response r. The mutexes of the source serialize every access
to this state, so its evolution is modelled as a sequence of atomic
steps. -/

/-- One slot of the pending table: the buffered channel of capacity one
that Call creates before sending (empty, or holding one response). -/
abbrev Slot := Option JSONRPCResponse

/-- State shared between Call invocations and the read loop: the nextID
counter and the requests map keyed by interface-typed identifiers. -/
structure ClientState where
  nextID : Int
  pending : List (GoValue × Slot)

/-- Lookup in the pending-request map (Go map semantics: at most one
entry per key; the list is kept duplicate-free by construction). -/
def lookupPending (ps : List (GoValue × Slot)) (k : GoValue) : Option Slot :=
  match ps with
  | [] => none
  | (k₀, s₀) :: rest => if k₀ = k then some s₀ else lookupPending rest k

/-- Removal from the pending-request map (delete of client.go). -/
def removePending (ps : List (GoValue × Slot)) (k : GoValue) : List (GoValue × Slot) :=
  match ps with
  | [] => []
  | (k₀, s₀) :: rest => if k₀ = k then rest else (k₀, s₀) :: removePending rest k

/-- Non-blocking handoff of the read loop of Client.Start: if a request
with this identifier is waiting and its channel is empty, the response
is placed in the channel; a full channel or an unknown identifier drops
the response silently. Keys are untouched. -/
def fillSlot (ps : List (GoValue × Slot)) (k : GoValue) (r : JSONRPCResponse) :
    List (GoValue × Slot) :=
  match ps with
  | [] => []
  | (k₀, s₀) :: rest =>
      if k₀ = k then
        (k₀, match s₀ with
          | none => some r
          | some r₀ => some r₀) :: rest
      else (k₀, s₀) :: fillSlot rest k r

/-- Client.Call up to the point the request is on the wire: allocate the
next identifier (stored with dynamic type int64) and register an empty
channel under it. Returns the new state and the allocated identifier. -/
def clientCall (s : ClientState) : ClientState × Int :=
  (⟨s.nextID + 1, (GoValue.int s.nextID, none) :: s.pending⟩, s.nextID)

/-- One iteration of the read loop of Client.Start after decoding a
response from the wire: the identifier seen by the lookup is the JSON
round trip of whatever identifier the response carried. -/
def clientDeliver (s : ClientState) (resp : JSONRPCResponse) : ClientState :=
  let decoded : JSONRPCResponse := ⟨jsonRoundTripID resp.id, resp.result, resp.error⟩
  ⟨s.nextID, fillSlot s.pending decoded.id decoded⟩

/-- Atomic steps of the correlator state, from client.go. call covers a
send that succeeds; sendFail a Call whose encoder write fails (the entry
is inserted and removed again under the same critical sections, so the
net effect on the table is nothing, but the counter has advanced);
finish a caller that received its response; abandon a caller whose
context fired; recv one read-loop delivery. -/
inductive ClientOp where
  | call : ClientOp
  | sendFail : ClientOp
  | finish : Int → ClientOp
  | abandon : Int → ClientOp
  | recv : JSONRPCResponse → ClientOp

/-- Effect of one step on the client state. -/
def applyClientOp (s : ClientState) : ClientOp → ClientState
  | ClientOp.call => (clientCall s).1
  | ClientOp.sendFail => ⟨s.nextID + 1, s.pending⟩
  | ClientOp.finish i => ⟨s.nextID, removePending s.pending (GoValue.int i)⟩
  | ClientOp.abandon i => ⟨s.nextID, removePending s.pending (GoValue.int i)⟩
  | ClientOp.recv resp => clientDeliver s resp

/-- Initial client state from NewClient: counter at 1, no pending call. -/
def initClient : ClientState := ⟨1, []⟩

/-- State after a sequence of steps from the initial state. -/
def runClient (ops : List ClientOp) : ClientState :=
  ops.foldl applyClientOp initClient

/-- Invariant of the pending table: every key was allocated by the
counter (an int64 below the current counter value, at least the initial
value 1) and no identifier owns two entries. -/
def PendingInv (s : ClientState) : Prop :=
  (∀ e ∈ s.pending, ∃ k : Int, e.1 = GoValue.int k ∧ 1 ≤ k ∧ k < s.nextID) ∧
    (s.pending.map Prod.fst).Nodup ∧ 1 ≤ s.nextID

theorem fillSlot_map_fst (ps : List (GoValue × Slot)) (k : GoValue) (r : JSONRPCResponse) :
    (fillSlot ps k r).map Prod.fst = ps.map Prod.fst := by
  induction ps with
  | nil => rfl
  | cons hd tl ih =>
      obtain ⟨k₀, s₀⟩ := hd
      by_cases h : k₀ = k <;> simp [fillSlot, h, ih]

theorem mem_fillSlot_fst {ps : List (GoValue × Slot)} {k : GoValue} {r : JSONRPCResponse}
    {e : GoValue × Slot} (he : e ∈ fillSlot ps k r) : ∃ s₀, (e.1, s₀) ∈ ps := by
  have h1 : e.1 ∈ (fillSlot ps k r).map Prod.fst := List.mem_map_of_mem _ he
  rw [fillSlot_map_fst] at h1
  obtain ⟨⟨a, b⟩, hp, hpe⟩ := List.mem_map.mp h1
  exact ⟨b, by rw [← hpe]; exact hp⟩

theorem mem_removePending {ps : List (GoValue × Slot)} {k : GoValue} {e : GoValue × Slot}
    (he : e ∈ removePending ps k) : e ∈ ps := by
  induction ps with
  | nil => simp [removePending] at he
  | cons hd tl ih =>
      obtain ⟨k₀, s₀⟩ := hd
      by_cases h : k₀ = k
      · simp only [removePending, h, if_pos rfl] at he
        exact List.mem_cons_of_mem _ he
      · simp only [removePending, if_neg h] at he
        rcases List.mem_cons.mp he with h₁ | h₁
        · exact h₁ ▸ List.mem_cons_self _ _
        · exact List.mem_cons_of_mem _ (ih h₁)

theorem removePending_sublist (ps : List (GoValue × Slot)) (k : GoValue) :
    ((removePending ps k).map Prod.fst).Sublist (ps.map Prod.fst) := by
  induction ps with
  | nil => simp [removePending]
  | cons hd tl ih =>
      obtain ⟨k₀, s₀⟩ := hd
      by_cases h : k₀ = k
      · simp only [removePending, h, if_pos rfl]
        exact (List.sublist_cons_self _ _)
      · simp only [removePending, if_neg h, List.map_cons]
        exact ih.cons₂ _

theorem pendingInv_step (s : ClientState) (op : ClientOp) (h : PendingInv s) :
    PendingInv (applyClientOp s op) := by
  obtain ⟨hbound, hnd, hpos⟩ := h
  cases op with
  | call =>
      refine ⟨?_, ?_, by show (1 : Int) ≤ s.nextID + 1; omega⟩
      · intro e he
        simp only [applyClientOp, clientCall, List.mem_cons] at he
        rcases he with rfl | he
        · exact ⟨s.nextID, rfl, hpos, by show s.nextID < s.nextID + 1; omega⟩
        · obtain ⟨k, hk, hk1, hk2⟩ := hbound e he
          exact ⟨k, hk, hk1, by show k < s.nextID + 1; omega⟩
      · simp only [applyClientOp, clientCall, List.map_cons]
        refine List.nodup_cons.mpr ⟨?_, hnd⟩
        intro hmem
        obtain ⟨e, he, heq⟩ := List.mem_map.mp hmem
        obtain ⟨k, hk, _, hk2⟩ := hbound e he
        rw [hk] at heq
        have hks : k = s.nextID := by injection heq
        omega
  | sendFail =>
      refine ⟨?_, hnd, by show (1 : Int) ≤ s.nextID + 1; omega⟩
      intro e he
      obtain ⟨k, hk, hk1, hk2⟩ := hbound e he
      exact ⟨k, hk, hk1, by show k < s.nextID + 1; omega⟩
  | finish i =>
      refine ⟨fun e he => hbound e (mem_removePending he), ?_, hpos⟩
      exact (removePending_sublist _ _).nodup hnd
  | abandon i =>
      refine ⟨fun e he => hbound e (mem_removePending he), ?_, hpos⟩
      exact (removePending_sublist _ _).nodup hnd
  | recv resp =>
      refine ⟨?_, ?_, hpos⟩
      · intro e he
        obtain ⟨t, ht⟩ := mem_fillSlot_fst he
        obtain ⟨k, hk, hk1, hk2⟩ := hbound (e.1, t) ht
        exact ⟨k, hk, hk1, hk2⟩
      · simpa [applyClientOp, clientDeliver, fillSlot_map_fst] using hnd

theorem pendingInv_run (ops : List ClientOp) : PendingInv (runClient ops) := by
  have base : PendingInv initClient := by
    refine ⟨by simp [initClient], by simp [initClient], by simp [initClient]⟩
  rw [runClient]
  induction ops using List.reverseRecOn with
  | nil => exact base
  | append_singleton l op ih =>
      rw [List.foldl_append]
      exact pendingInv_step _ op ih

theorem lookupPending_eq_none {ps : List (GoValue × Slot)} {k : GoValue}
    (h : ∀ e ∈ ps, e.1 ≠ k) : lookupPending ps k = none := by
  induction ps with
  | nil => rfl
  | cons hd tl ih =>
      obtain ⟨k₀, s₀⟩ := hd
      have hne : k₀ ≠ k := h (k₀, s₀) (List.mem_cons_self _ _)
      simp only [lookupPending, if_neg hne]
      exact ih fun e he => h e (List.mem_cons_of_mem _ he)

theorem lookupPending_removePending_nodup {ps : List (GoValue × Slot)} {k : GoValue}
    (hnd : (ps.map Prod.fst).Nodup) : lookupPending (removePending ps k) k = none := by
  induction ps with
  | nil => rfl
  | cons hd tl ih =>
      obtain ⟨k₀, s₀⟩ := hd
      simp only [List.map_cons, List.nodup_cons] at hnd
      by_cases h : k₀ = k
      · simp only [removePending, if_pos h]
        subst h
        refine lookupPending_eq_none fun e he hek => ?_
        exact hnd.1 (hek ▸ List.mem_map_of_mem _ he)
      · simp only [removePending, if_neg h, lookupPending, if_neg h]
        exact ih hnd.2

/-- C1: one Call is pending under identifier 1 (stored with dynamic type
int64); the matching response, whose identifier on the wire is the JSON
number 1, is decoded by the read loop into a float64-typed identifier,
so the pending-table lookup misses and the response is dropped: the
waiting channel stays empty and the caller never receives the response,
although its identifier matches numerically. -/
theorem c1_matching_response_dropped :
    jsonRoundTripID (GoValue.int 1) = GoValue.float 1 ∧
    (clientCall initClient).2 = 1 ∧
    lookupPending (clientCall initClient).1.pending (GoValue.int 1) = some none ∧
    lookupPending
        (clientDeliver (clientCall initClient).1
          ⟨GoValue.int 1, some (JValue.str "ok"), none⟩).pending
        (GoValue.int 1) = some none := by
  exact ⟨rfl, rfl, rfl, rfl⟩

/-- C4: after any sequence of correlator steps, the pending table holds
only identifiers allocated by the counter (each present at most once,
each strictly below nextID), so the identifier the next Call allocates
is never one that is still pending; a Call inserts its fresh identifier
with an empty slot at the moment the request is sent, abandonment
removes the identifier, and a read-loop delivery never adds or removes
identifiers. -/
theorem c4_pending_lifecycle (ops : List ClientOp) :
    PendingInv (runClient ops) ∧
    lookupPending (runClient ops).pending (GoValue.int (runClient ops).nextID) = none ∧
    (clientCall (runClient ops)).1.pending
      = (GoValue.int (runClient ops).nextID, none) :: (runClient ops).pending ∧
    (∀ i : Int,
      lookupPending (applyClientOp (runClient ops) (ClientOp.abandon i)).pending
        (GoValue.int i) = none) ∧
    (∀ resp : JSONRPCResponse,
      (applyClientOp (runClient ops) (ClientOp.recv resp)).pending.map Prod.fst
        = (runClient ops).pending.map Prod.fst) := by
  obtain ⟨hbound, hnd, hpos⟩ := pendingInv_run ops
  refine ⟨pendingInv_run ops, ?_, rfl, ?_, ?_⟩
  · refine lookupPending_eq_none fun e he hek => ?_
    obtain ⟨k, hk, _, hk2⟩ := hbound e he
    rw [hk] at hek
    have : k = (runClient ops).nextID := by injection hek
    omega
  · intro i
    exact lookupPending_removePending_nodup hnd
  · intro resp
    exact fillSlot_map_fst _ _ _

/-! ## Server method dispatcher (server.go) -/

/-- ClientInfo and ServerInfo of protocol.go. -/
structure PeerInfo where
  name : String
  version : String

/-- ResourcesCapability of protocol.go. -/
structure ResourcesCapability where
  subscribe : Bool
  listChanged : Bool

/-- PromptsCapability of protocol.go. -/
structure PromptsCapability where
  listChanged : Bool

/-- ServerCapabilities of protocol.go; ToolsCapability is an empty
struct, so its presence is a plain Option Unit. -/
structure ServerCapabilities where
  tools : Option Unit
  resources : Option ResourcesCapability
  prompts : Option PromptsCapability

/-- InitializeParams of protocol.go as the server decodes it. -/
structure InitializeParams where
  protocolVersion : String
  clientInfo : PeerInfo

/-- Lookup of a key in a decoded JSON object. -/
def jfield (kvs : List (String × JValue)) (k : String) : Option JValue :=
  match kvs with
  | [] => none
  | (k₀, v₀) :: rest => if k₀ = k then some v₀ else jfield rest k

/-- Decoding a string-typed struct field from JSON: an absent field
keeps the Go zero value, a string decodes, any other type is an
unmarshal error (modelled as none). -/
def decodeStrField (kvs : List (String × JValue)) (k : String) : Option String :=
  match jfield kvs k with
  | none => some ""
  | some (JValue.str s) => some s
  | some _ => none

/-- Decoding the clientInfo field: absent keeps the zero struct. -/
def decodePeerInfo (kvs : List (String × JValue)) (k : String) : Option PeerInfo :=
  match jfield kvs k with
  | none => some ⟨"", ""⟩
  | some (JValue.obj inner) =>
      match decodeStrField inner "name", decodeStrField inner "version" with
      | some n, some v => some ⟨n, v⟩
      | _, _ => none
  | some _ => none

/-- Unmarshalling the raw params of an initialize request into
InitializeParams: nil or non-object raw bytes fail. -/
def decodeInitializeParams : Option JValue → Option InitializeParams
  | some (JValue.obj kvs) =>
      match decodeStrField kvs "protocolVersion", decodePeerInfo kvs "clientInfo" with
      | some pv, some ci => some ⟨pv, ci⟩
      | _, _ => none
  | _ => none

/-- Marshalled InitializeResult, as the response payload the server
produces for an initialize request. -/
def encodeInitializeResult (caps : ServerCapabilities) (info : PeerInfo) : JValue :=
  JValue.obj
    [("protocolVersion", JValue.str "2024-11-05"),
     ("capabilities", JValue.obj
       ((match caps.tools with
         | some _ => [("tools", JValue.obj [])]
         | none => []) ++
        (match caps.resources with
         | some r => [("resources", JValue.obj
             [("subscribe", JValue.bool r.subscribe),
              ("listChanged", JValue.bool r.listChanged)])]
         | none => []) ++
        (match caps.prompts with
         | some p => [("prompts", JValue.obj [("listChanged", JValue.bool p.listChanged)])]
         | none => []))),
     ("serverInfo", JValue.obj
       [("name", JValue.str info.name), ("version", JValue.str info.version)])]

/-- Handler function shape of server.go: raw params in, marshalled
result or a Go error out. -/
abbrev HandlerFun := Option JValue → Except String JValue

/-- Server of server.go: identity, declared capabilities and the
method-to-handler registry. -/
structure ServerState where
  name : String
  version : String
  capabilities : ServerCapabilities
  handlers : List (String × HandlerFun)

/-- Registry lookup of server.go (Go map access). -/
def lookupHandler (hs : List (String × HandlerFun)) (m : String) : Option HandlerFun :=
  match hs with
  | [] => none
  | (m₀, h₀) :: rest => if m₀ = m then some h₀ else lookupHandler rest m

/-- Server.handleInitialize: bad params yield an invalid-params error
response, otherwise the declared capabilities and identity are
returned. -/
def handleInitialize (s : ServerState) (req : JSONRPCRequest) : JSONRPCResponse :=
  match decodeInitializeParams req.params with
  | none =>
      NewJSONRPCResponse req.id none
        (some (NewJSONRPCError ErrCodeInvalidParams "Invalid initialize parameters" none))
  | some _ =>
      NewJSONRPCResponse req.id
        (some (encodeInitializeResult s.capabilities ⟨s.name, s.version⟩)) none

/-- Server.HandleRequest: initialize is intercepted; an unregistered
method yields a method-not-found error response; a handler error yields
an internal-error response carrying the error message; a handler result
yields a success response. Every path produces a response (the Go error
return of HandleRequest is nil on every path). -/
def handleRequest (s : ServerState) (req : JSONRPCRequest) : JSONRPCResponse :=
  if req.method = MethodInitialize then handleInitialize s req
  else
    match lookupHandler s.handlers req.method with
    | none =>
        NewJSONRPCResponse req.id none
          (some (NewJSONRPCError ErrCodeMethodNotFound
            ("Method not found: " ++ req.method) none))
    | some h =>
        match h req.params with
        | Except.error e =>
            NewJSONRPCResponse req.id none
              (some (NewJSONRPCError ErrCodeInternalError e none))
        | Except.ok result => NewJSONRPCResponse req.id (some result) none

/-- One decoded envelope of the Serve loop: a malformed input decodes to
none and is answered with a parse-error response; the loop then moves to
the next envelope. -/
def serveEnvelope (s : ServerState) : Option JSONRPCRequest → JSONRPCResponse
  | none =>
      NewJSONRPCResponse GoValue.null none
        (some (NewJSONRPCError ErrCodeParseError "Parse error" none))
  | some req => handleRequest s req

/-- Server.Serve: decode, dispatch and answer one envelope at a time
until end of stream; no envelope terminates the loop early, so every
envelope of the input stream gets exactly one response. -/
def serve (s : ServerState) (envelopes : List (Option JSONRPCRequest)) :
    List JSONRPCResponse :=
  envelopes.map (serveEnvelope s)

/-- C7: a request whose method is not initialize and has no registered
handler is answered with a method-not-found response (code -32601); a
request whose handler returns an error is answered with an
internal-error response (code -32603) carrying the handler error
message; and the serve loop always continues: the first envelope is
answered by dispatch and the rest of the stream is served unchanged, so
every envelope receives a response. -/
theorem c7_dispatch_errors_do_not_stop_serve (s : ServerState) (req : JSONRPCRequest)
    (rest : List (Option JSONRPCRequest)) :
    (req.method ≠ MethodInitialize → lookupHandler s.handlers req.method = none →
      handleRequest s req
        = ⟨req.id, none, some ⟨ErrCodeMethodNotFound, "Method not found: " ++ req.method, none⟩⟩) ∧
    (∀ h e, req.method ≠ MethodInitialize → lookupHandler s.handlers req.method = some h →
      h req.params = Except.error e →
      handleRequest s req = ⟨req.id, none, some ⟨ErrCodeInternalError, e, none⟩⟩) ∧
    serve s (some req :: rest) = handleRequest s req :: serve s rest ∧
    (serve s (some req :: rest)).length = rest.length + 1 := by
  refine ⟨?_, ?_, rfl, by simp [serve]⟩
  · intro hm hl
    simp [handleRequest, hm, hl, NewJSONRPCResponse, NewJSONRPCError]
  · intro h e hm hl he
    simp [handleRequest, hm, hl, he, NewJSONRPCResponse, NewJSONRPCError]

/-! ## Skill URI parsing (servers/kubekey.go)

URIs are modelled as their character lists; the inputs in scope are
ASCII, where the byte indexing of the Go source coincides with
character indexing. -/

/-- Fixed URI scheme the kubekey resource reader accepts. -/
def skillScheme : List Char := "skill://".toList

/-- isSkillURI of kubekey.go: the URI is strictly longer than the
scheme and its first eight characters are the scheme. -/
def isSkillURI (uri : String) : Bool :=
  decide (8 < uri.length) && decide (uri.toList.take 8 = skillScheme)

/-- Position of the first path separator, as the loop of parseSkillURI
computes it: the index of the first slash, left at zero when there is
none. -/
def firstSlashPos : List Char → Option Nat
  | [] => none
  | c :: cs => if c = '/' then some 0 else (firstSlashPos cs).map (· + 1)

/-- parseSkillURI of kubekey.go: strip the eight scheme characters,
split at the first slash; with no slash (or a slash in first position)
the whole remainder is the skill name and the resource path is empty. -/
def parseSkillURI (uri : String) : String × String :=
  let path := uri.toList.drop 8
  let idx := (firstSlashPos path).getD 0
  if idx = 0 then (⟨path⟩, "")
  else (⟨path.take idx⟩, ⟨path.drop (idx + 1)⟩)

theorem firstSlashPos_append (name rest : List Char) (h : ('/' : Char) ∉ name) :
    firstSlashPos (name ++ '/' :: rest) = some name.length := by
  induction name with
  | nil => simp [firstSlashPos]
  | cons c cs ih =>
      have hc : c ≠ '/' := fun hc => h (hc ▸ List.mem_cons_self c cs)
      have hcs : ('/' : Char) ∉ cs := fun hm => h (List.mem_cons_of_mem _ hm)
      simp [firstSlashPos, hc, ih hcs]

/-- C6: the documented URI parses to skill name kubekey and resource
path script/create_cluster.sh; any URI whose first eight characters are
not the scheme skill:// is rejected by isSkillURI; and the split is on
the first separator only: for any name free of separators, everything
after the first slash, later slashes included, is the resource path. -/
theorem c6_skill_uri_parsing (uri : String) (name rest : List Char) :
    parseSkillURI "skill://kubekey/script/create_cluster.sh"
      = ("kubekey", "script/create_cluster.sh") ∧
    (uri.toList.take 8 ≠ skillScheme → isSkillURI uri = false) ∧
    (name ≠ [] → ('/' : Char) ∉ name →
      parseSkillURI ⟨skillScheme ++ name ++ '/' :: rest⟩ = (⟨name⟩, ⟨rest⟩)) := by
  refine ⟨by decide, ?_, ?_⟩
  · intro h
    have h3 : ¬ List.take 8 uri.data = skillScheme := h
    simp [isSkillURI, String.toList, h3]
  · intro hne hslash
    have hdrop : (skillScheme ++ name ++ '/' :: rest).drop 8 = name ++ '/' :: rest := by
      have : skillScheme.length = 8 := by decide
      rw [List.append_assoc, ← this, List.drop_left]
    have hpos : firstSlashPos (name ++ '/' :: rest) = some name.length :=
      firstSlashPos_append name rest hslash
    have hlen : name.length ≠ 0 := fun h => hne (List.length_eq_zero.mp h)
    have htake : (name ++ '/' :: rest).take name.length = name := List.take_left _ _
    have hdrop2 : (name ++ '/' :: rest).drop (name.length + 1) = rest := by
      have hcons : name ++ '/' :: rest = (name ++ ['/']) ++ rest := by
        simp
      rw [hcons]
      have : (name ++ ['/']).length = name.length + 1 := by simp
      rw [← this, List.drop_left]
    simp only [parseSkillURI, String.toList, hdrop, hpos, Option.getD_some,
      if_neg hlen, htake, hdrop2]

/-! ## Skill data model and registry (model.go, registry.go) -/

/-- Skill descriptor: metadata from the SKILL.md frontmatter, the path
information and the loaded instructions. Time stamps are opaque
naturals. -/
structure Skill where
  name : String
  description : String
  license : String
  compatibility : String
  basePath : String
  scriptsPath : String
  skillPath : String
  instructions : String
  loadedAt : Nat
deriving DecidableEq

/-- Registry of skills: a concurrency-safe Go map from name to
descriptor, modelled extensionally. -/
structure Registry where
  skills : String → Option Skill

/-- Registry.Register: a nil skill (none) or an empty name is refused
with an error and the map is untouched; otherwise the descriptor is
stored under its name, silently replacing any previous entry. The
second component is the Go error return. -/
def registryRegister (r : Registry) (s : Option Skill) : Registry × Option String :=
  match s with
  | none => (r, some "cannot register nil skill")
  | some sk =>
      if sk.name = "" then (r, some "skill name cannot be empty")
      else (⟨fun n => if n = sk.name then some sk else r.skills n⟩, none)

/-- Registry.Get: descriptor or a not-found error. -/
def registryGet (r : Registry) (n : String) : Except String Skill :=
  match r.skills n with
  | some sk => Except.ok sk
  | none => Except.error ("skill not found: " ++ n)

/-- C10: Register returns an error, leaving the registry unchanged,
exactly when the skill is nil or its name is empty; a skill with a
non-empty name is always accepted, and a later registration under an
already-present name silently replaces the earlier descriptor, so
duplicates are never rejected. -/
theorem c10_register_errors_and_replacement (r : Registry) (s : Option Skill) (sk : Skill) :
    ((registryRegister r s).2.isSome ↔ s = none ∨ ∃ sk₀, s = some sk₀ ∧ sk₀.name = "") ∧
    ((registryRegister r s).2.isSome → (registryRegister r s).1 = r) ∧
    (sk.name ≠ "" →
      (registryRegister r (some sk)).2 = none ∧
      registryGet (registryRegister r (some sk)).1 sk.name = Except.ok sk ∧
      ∀ prev : Skill, registryGet (registryRegister (registryRegister r (some prev)).1 (some sk)).1 sk.name
        = Except.ok sk) := by
  refine ⟨?_, ?_, ?_⟩
  · constructor
    · intro h
      match hs : s with
      | none => exact Or.inl rfl
      | some sk₀ =>
          by_cases hn : sk₀.name = ""
          · exact Or.inr ⟨sk₀, rfl, hn⟩
          · simp [registryRegister, hn] at h
    · rintro (rfl | ⟨sk₀, rfl, hn⟩)
      · rfl
      · simp [registryRegister, hn]
  · intro h
    match hs : s with
    | none => rfl
    | some sk₀ =>
        by_cases hn : sk₀.name = ""
        · simp [registryRegister, hn]
        · simp [registryRegister, hn] at h
  · intro hn
    refine ⟨by simp [registryRegister, hn], by simp [registryRegister, registryGet, hn], ?_⟩
    intro prev
    by_cases hp : prev.name = "" <;>
      simp [registryRegister, registryGet, hn, hp]

/-! ## Capability adapter (mcp_adapter.go) -/

/-- Tool of protocol.go; the input schema is the decoded JSON object. -/
structure Tool where
  name : String
  description : String
  inputSchema : List (String × JValue)

/-- ToolCallParams of protocol.go. -/
structure ToolCallParams where
  name : String
  arguments : List (String × JValue)

/-- Execution parameters: the dynamically typed Go map, carried as an
association list in map iteration order, one entry per key. -/
abbrev ExecutionParams := List (String × JValue)

/-- Assignment into a Go map carried as an association list: an
existing entry for the key is overwritten in place, a new key is
appended. -/
def mapSet : List (String × JValue) → String → JValue → List (String × JValue)
  | [], k, v => [(k, v)]
  | (k₀, v₀) :: rest, k, v =>
      if k₀ = k then (k₀, v) :: rest else (k₀, v₀) :: mapSet rest k v

/-- Copying one JSON object into a Go map, entry by entry. -/
def setParams (m : List (String × JValue)) (kvs : List (String × JValue)) :
    List (String × JValue) :=
  kvs.foldl (fun acc kv => mapSet acc kv.1 kv.2) m

/-- MCPAdapter.generateToolSchema: the fixed generic schema, an action
string plus free-form nested parameters, with action required; nothing
is derived from the skill content. -/
def generateToolSchema (_s : Skill) : List (String × JValue) :=
  [("type", JValue.str "object"),
   ("properties", JValue.obj
     [("action", JValue.obj
       [("type", JValue.str "string"),
        ("description", JValue.str "The action to perform (e.g., create_cluster, add_nodes, etc.)")]),
      ("params", JValue.obj
       [("type", JValue.str "object"),
        ("description", JValue.str "Additional parameters for the action"),
        ("properties", JValue.obj [])])]),
   ("required", JValue.arr [JValue.str "action"])]

/-- MCPAdapter.SkillToTool: name and description are carried over, the
schema is the generic envelope. -/
def skillToTool (s : Skill) : Tool :=
  ⟨s.name, s.description, generateToolSchema s⟩

/-- MCPAdapter.ToolCallToSkillParams: the action argument (when a
string) becomes a top-level parameter, a nested params object is
flattened one level, and every other top-level argument is copied
through. -/
def toolCallToSkillParams (tc : ToolCallParams) : ExecutionParams :=
  let p0 : ExecutionParams := []
  let p1 := match jfield tc.arguments "action" with
    | some (JValue.str a) => mapSet p0 "action" (JValue.str a)
    | _ => p0
  let p2 := match jfield tc.arguments "params" with
    | some (JValue.obj kvs) => setParams p1 kvs
    | _ => p1
  tc.arguments.foldl
    (fun acc kv => if kv.1 = "action" ∨ kv.1 = "params" then acc else mapSet acc kv.1 kv.2) p2

theorem jfield_mapSet_self (m : List (String × JValue)) (k : String) (v : JValue) :
    jfield (mapSet m k v) k = some v := by
  induction m with
  | nil => simp [mapSet, jfield]
  | cons hd tl ih =>
      obtain ⟨k₀, v₀⟩ := hd
      by_cases h : k₀ = k
      · simp [mapSet, jfield, h]
      · simp [mapSet, jfield, h, ih]

theorem jfield_mapSet_ne (m : List (String × JValue)) (k k₁ : String) (v : JValue)
    (h : k₁ ≠ k) : jfield (mapSet m k₁ v) k = jfield m k := by
  induction m with
  | nil => simp [mapSet, jfield, h]
  | cons hd tl ih =>
      obtain ⟨k₀, v₀⟩ := hd
      by_cases h₀ : k₀ = k₁
      · subst h₀
        simp [mapSet, jfield, h]
      · simp only [mapSet, if_neg h₀]
        by_cases h₂ : k₀ = k
        · simp [jfield, h₂]
        · simp [jfield, h₂, ih]

theorem jfield_copy_not_mem (args : List (String × JValue)) (m : List (String × JValue))
    (k : String) (hk : k ∉ args.map Prod.fst) :
    jfield (args.foldl
      (fun acc kv => if kv.1 = "action" ∨ kv.1 = "params" then acc else mapSet acc kv.1 kv.2) m) k
      = jfield m k := by
  induction args generalizing m with
  | nil => rfl
  | cons hd tl ih =>
      obtain ⟨k₀, v₀⟩ := hd
      simp only [List.map_cons, List.mem_cons, not_or] at hk
      rw [List.foldl_cons]
      by_cases h : k₀ = "action" ∨ k₀ = "params"
      · simpa [h] using ih m hk.2
      · have : jfield (mapSet m k₀ v₀) k = jfield m k :=
          jfield_mapSet_ne m k k₀ v₀ fun he => hk.1 he.symm
        simp only [h, if_false]
        rw [ih _ hk.2, this]

theorem jfield_copy_mem (args : List (String × JValue)) (m : List (String × JValue))
    (k : String) (v : JValue) (hnd : (args.map Prod.fst).Nodup)
    (ha : k ≠ "action") (hp : k ≠ "params") (hm : (k, v) ∈ args) :
    jfield (args.foldl
      (fun acc kv => if kv.1 = "action" ∨ kv.1 = "params" then acc else mapSet acc kv.1 kv.2) m) k
      = some v := by
  induction args generalizing m with
  | nil => simp at hm
  | cons hd tl ih =>
      obtain ⟨k₀, v₀⟩ := hd
      simp only [List.map_cons, List.nodup_cons] at hnd
      rw [List.foldl_cons]
      rcases List.mem_cons.mp hm with heq | hmem
      · injection heq with h1 h2
        subst h1
        subst h2
        have hk₀ : ¬ (k = "action" ∨ k = "params") := by
          rintro (h | h)
          · exact ha h
          · exact hp h
        simp only [if_neg hk₀]
        rw [jfield_copy_not_mem tl _ k hnd.1]
        exact jfield_mapSet_self m k v
      · by_cases h : k₀ = "action" ∨ k₀ = "params"
        · simp only [if_pos h]
          exact ih _ hnd.2 hmem
        · simp only [if_neg h]
          exact ih _ hnd.2 hmem

/-- C5: converting a skill descriptor yields a tool with the same name
and description whose input schema requires exactly the action field;
the documented tool call converts back to exactly the execution
parameters action=create, foo=bar (the nested params object flattened
one level); and in general every top-level argument other than action
and params is passed through unchanged. -/
theorem c5_adapter_round_trip (s : Skill) :
    (skillToTool s).name = s.name ∧
    (skillToTool s).description = s.description ∧
    jfield (skillToTool s).inputSchema "required" = some (JValue.arr [JValue.str "action"]) ∧
    toolCallToSkillParams
        ⟨"kubekey", [("action", JValue.str "create"),
                     ("params", JValue.obj [("foo", JValue.str "bar")])]⟩
      = [("action", JValue.str "create"), ("foo", JValue.str "bar")] ∧
    (∀ (args : List (String × JValue)) (k : String) (v : JValue),
      (args.map Prod.fst).Nodup → k ≠ "action" → k ≠ "params" → (k, v) ∈ args →
      jfield (toolCallToSkillParams ⟨"kubekey", args⟩) k = some v) := by
  refine ⟨rfl, rfl, rfl, rfl, ?_⟩
  intro args k v hnd ha hp hm
  exact jfield_copy_mem args _ k v hnd ha hp hm

/-! ## Direct process executor (direct/executor.go, direct/runner.go)

File-system and process effects are explicit oracles: a FileSys carries
the stat and directory-listing answers, a RunOutcome the behaviour of
the one spawned script process. -/

/-- ExecutionResult of model.go: durations and timestamps are opaque
naturals supplied by a clock oracle. -/
structure ExecutionResult where
  success : Bool
  output : String
  error : String
  exitCode : Int
  duration : Nat
  timestamp : Nat
deriving DecidableEq, Repr

/-- One directory entry, as os.ReadDir reports it. -/
structure DirEntry where
  name : String
  isDir : Bool
deriving DecidableEq, Repr

/-- File-system oracle: whether os.Stat succeeds on a path, and what
os.ReadDir answers for a directory. -/
structure FileSys where
  statExists : String → Bool
  readDir : String → Except String (List DirEntry)

/-- filepath.Join for the clean, non-empty relative components this
code joins. -/
def pathJoin (a b : String) : String := a ++ "/" ++ b

/-- Test of filepath.Ext(name) == .sh: the last three characters are
.sh (the dot of the extension is then necessarily the last dot). -/
def hasShExt (n : String) : Bool :=
  decide (n.toList.reverse.take 3 = ['h', 's', '.'])

/-- DirectExecutor.findScript: an explicit script parameter wins (and
must exist); otherwise an action parameter maps to action.sh when that
file exists; otherwise the directory is scanned for main.sh, then for
the first .sh entry; otherwise no script is found. -/
def findScript (fs : FileSys) (s : Skill) (params : ExecutionParams) : Except String String :=
  match jfield params "script" with
  | some (JValue.str scriptName) =>
      let scriptPath := pathJoin s.scriptsPath scriptName
      if fs.statExists scriptPath then Except.ok scriptPath
      else Except.error ("script not found: " ++ scriptPath)
  | _ =>
      let fallback : Except String String :=
        match fs.readDir s.scriptsPath with
        | Except.error e => Except.error ("failed to read scripts directory: " ++ e)
        | Except.ok entries =>
            match entries.find? (fun e => !e.isDir && hasShExt e.name && e.name == "main.sh") with
            | some e => Except.ok (pathJoin s.scriptsPath e.name)
            | none =>
                match entries.find? (fun e => !e.isDir && hasShExt e.name) with
                | some e => Except.ok (pathJoin s.scriptsPath e.name)
                | none => Except.error ("no script found in " ++ s.scriptsPath)
      match jfield params "action" with
      | some (JValue.str a) =>
          let actionPath := pathJoin s.scriptsPath (a ++ ".sh")
          if fs.statExists actionPath then Except.ok actionPath else fallback
      | _ => fallback

/-- Environment of the child process: a Go string map, extensional. -/
abbrev EnvMap := String → Option String

/-- Assignment into the environment map. -/
def envSet (m : EnvMap) (k v : String) : EnvMap :=
  fun q => if q = k then some v else m q

/-- Body of the parameter loop of DirectExecutor.prepareExecution: the
script and action keys are internal and skipped; every other parameter
is put in the environment under its SKILL_PARAM_ prefixed key, and
appended to the argument vector as a two-element pair when its string
form is non-empty and does not start with a dash. -/
def prepStep (acc : List String × EnvMap) (kv : String × JValue) : List String × EnvMap :=
  if kv.1 = "script" ∨ kv.1 = "action" then acc
  else
    let valueStr := goFormat kv.2
    let env := envSet acc.2 ("SKILL_PARAM_" ++ kv.1) valueStr
    let args :=
      match valueStr.toList with
      | [] => acc.1
      | c :: _ => if c = '-' then acc.1 else acc.1 ++ ["--" ++ kv.1, valueStr]
    (args, env)

/-- DirectExecutor.prepareExecution: the fixed skill environment plus
one loop step per parameter. -/
def prepareExecution (s : Skill) (params : ExecutionParams) : List String × EnvMap :=
  let env0 :=
    envSet (envSet (envSet (fun _ => none) "SKILL_NAME" s.name)
      "SKILL_BASE_PATH" s.basePath) "SKILL_SCRIPTS_PATH" s.scriptsPath
  params.foldl prepStep ([], env0)

/-- Behaviour of the one spawned script process, as the environment
decides it: chmod failure, start failure, a completed wait (exit code
zero or not), a wait error that is not an exit status, or expiry of the
wall-clock timer. -/
inductive RunOutcome where
  | chmodFail : String → RunOutcome
  | startFail : String → RunOutcome
  | exited : String → String → Int → RunOutcome
  | waitFail : String → String → String → RunOutcome
  | timedOut : RunOutcome

/-- ScriptRunner of runner.go: carries the wall-clock timeout in
nanoseconds. -/
structure ScriptRunner where
  timeout : Nat

/-- ScriptRunner.Run: stdout, stderr, exit code and the Go error
return. A missing script fails up front; a completed wait reports the
exit code with a nil error (a non-zero code is not a Run error); on
timeout the process is killed and a timeout error is reported with exit
code -1. The argument vector and environment do not influence the
modelled outcome, which the RunOutcome oracle fixes. -/
def scriptRun (r : ScriptRunner) (fs : FileSys) (beh : RunOutcome) (scriptPath : String)
    (_args : List String) (_env : EnvMap) : String × String × Int × Option String :=
  if !(fs.statExists scriptPath) then ("", "", -1, some ("script not found: " ++ scriptPath))
  else
    match beh with
    | RunOutcome.chmodFail m => ("", "", -1, some ("failed to make script executable: " ++ m))
    | RunOutcome.startFail m => ("", "", -1, some ("failed to start script: " ++ m))
    | RunOutcome.exited out errText code => (out, errText, code, none)
    | RunOutcome.waitFail out errText m => (out, errText, -1, some ("script execution error: " ++ m))
    | RunOutcome.timedOut =>
        ("", "", -1, some ("script execution timeout after " ++ toString r.timeout ++ "ns"))

/-- DirectExecutor.Execute: find the script, prepare arguments and
environment, run, and assemble the ExecutionResult. The second
component is the Go error return of Execute: it is non-nil whenever the
script cannot be found, the runner reports an error (timeout included)
or the exit code is non-zero, and the same failure is also recorded in
the result. -/
def directExecute (rnr : ScriptRunner) (fs : FileSys) (beh : RunOutcome) (dur ts : Nat)
    (s : Skill) (params : ExecutionParams) : ExecutionResult × Option String :=
  match findScript fs s params with
  | Except.error e => (⟨false, "", e, -1, dur, ts⟩, some e)
  | Except.ok scriptPath =>
      let ae := prepareExecution s params
      let r := scriptRun rnr fs beh scriptPath ae.1 ae.2
      let stdout := r.1
      let errText := r.2.1
      let exitCode := r.2.2.1
      let runErr := r.2.2.2
      let result : ExecutionResult :=
        ⟨runErr.isNone && decide (exitCode = 0), stdout, errText, exitCode, dur, ts⟩
      match runErr with
      | some msg => ({ result with error := msg ++ ": " ++ errText }, some msg)
      | none =>
          if exitCode ≠ 0 then
            ({ result with error := errText },
             some ("script exited with code " ++ toString exitCode ++ ": " ++ errText))
          else (result, none)

/-- Concrete skill used by the concrete instances below. -/
def sampleSkill : Skill :=
  ⟨"kubekey", "KubeKey skill", "", "", "skills/kubekey", "skills/kubekey/scripts", "", "", 0⟩

/-- File system with no files at all. -/
def emptyFS : FileSys :=
  ⟨fun _ => false, fun _ => Except.error "no such file or directory"⟩

/-- C2 counterexample: with a requested script that does not exist, the
failure is captured in the ExecutionResult, but the Go error return of
Execute is NOT nil: Execute returns the very same error alongside the
failed result, so the error does cross the Direct Executor boundary. -/
theorem c2_error_crosses_boundary :
    (directExecute ⟨1000⟩ emptyFS RunOutcome.timedOut 5 6 sampleSkill
        [("script", JValue.str "create_cluster.sh")]).1.success = false ∧
    (directExecute ⟨1000⟩ emptyFS RunOutcome.timedOut 5 6 sampleSkill
        [("script", JValue.str "create_cluster.sh")]).2
      = some "script not found: skills/kubekey/scripts/create_cluster.sh" := by
  exact ⟨rfl, rfl⟩

/-- C2 (amended): every execution failure — script not found, timeout,
non-zero exit — is captured as an ExecutionResult with success false
carrying the captured error stream, exit code and duration, and Execute
additionally returns a non-nil error describing the same failure. -/
theorem c2_failures_captured_and_returned (rnr : ScriptRunner) (fs : FileSys) (dur ts : Nat)
    (s : Skill) (params : ExecutionParams) :
    (∀ e, findScript fs s params = Except.error e →
      ∀ beh, directExecute rnr fs beh dur ts s params
        = (⟨false, "", e, -1, dur, ts⟩, some e)) ∧
    (∀ p, findScript fs s params = Except.ok p → fs.statExists p = true →
      (directExecute rnr fs RunOutcome.timedOut dur ts s params).1.success = false ∧
      (directExecute rnr fs RunOutcome.timedOut dur ts s params).1.exitCode = -1 ∧
      (directExecute rnr fs RunOutcome.timedOut dur ts s params).1.duration = dur ∧
      (directExecute rnr fs RunOutcome.timedOut dur ts s params).2
        = some ("script execution timeout after " ++ toString rnr.timeout ++ "ns")) ∧
    (∀ p out errText code, findScript fs s params = Except.ok p → fs.statExists p = true →
      code ≠ 0 →
      directExecute rnr fs (RunOutcome.exited out errText code) dur ts s params
        = (⟨false, out, errText, code, dur, ts⟩,
           some ("script exited with code " ++ toString code ++ ": " ++ errText))) := by
  refine ⟨?_, ?_, ?_⟩
  · intro e he beh
    simp [directExecute, he]
  · intro p hp hex
    simp [directExecute, hp, scriptRun, hex]
  · intro p out errText code hp hex hcode
    have hdec : decide (code = 0) = false := decide_eq_false hcode
    simp [directExecute, hp, scriptRun, hex, hcode, hdec]

theorem string_append_cancel {a b c : String} (h : a ++ b = a ++ c) : b = c := by
  have h2 : (a ++ b).data = (a ++ c).data := congrArg String.data h
  simp only [String.data_append] at h2
  exact String.ext (List.append_cancel_left h2)

theorem prep_fold_env_not_mem (params : ExecutionParams) (acc : List String × EnvMap)
    (k : String) (hk : k ∉ params.map Prod.fst) :
    (params.foldl prepStep acc).2 ("SKILL_PARAM_" ++ k) = acc.2 ("SKILL_PARAM_" ++ k) := by
  induction params generalizing acc with
  | nil => rfl
  | cons hd tl ih =>
      obtain ⟨k₀, v₀⟩ := hd
      simp only [List.map_cons, List.mem_cons, not_or] at hk
      rw [List.foldl_cons]
      rw [ih _ hk.2]
      by_cases h : k₀ = "script" ∨ k₀ = "action"
      · simp [prepStep, h]
      · have hne : ("SKILL_PARAM_" ++ k : String) ≠ "SKILL_PARAM_" ++ k₀ := by
          intro he
          exact hk.1 (string_append_cancel he)
        simp only [prepStep, if_neg h]
        simp [envSet, hne]

theorem prepStep_args_extend (acc : List String × EnvMap) (hd : String × JValue) :
    ∃ mid, (prepStep acc hd).1 = acc.1 ++ mid := by
  by_cases h : hd.1 = "script" ∨ hd.1 = "action"
  · exact ⟨[], by simp [prepStep, h]⟩
  · simp only [prepStep, if_neg h]
    rcases hm : (goFormat hd.2).toList with _ | ⟨c, cs⟩
    · exact ⟨[], by simp [hm]⟩
    · by_cases hc : c = '-'
      · exact ⟨[], by simp [hm, hc]⟩
      · exact ⟨["--" ++ hd.1, goFormat hd.2], by simp [hm, hc]⟩

theorem prep_fold_args_extend (params : ExecutionParams) (acc : List String × EnvMap) :
    ∃ tail, (params.foldl prepStep acc).1 = acc.1 ++ tail := by
  induction params generalizing acc with
  | nil => exact ⟨[], by simp⟩
  | cons hd tl ih =>
      rw [List.foldl_cons]
      obtain ⟨tail₁, h₁⟩ := ih (prepStep acc hd)
      obtain ⟨mid, h₂⟩ := prepStep_args_extend acc hd
      exact ⟨mid ++ tail₁, by rw [h₁, h₂, List.append_assoc]⟩

theorem prep_fold_mem (params : ExecutionParams) (acc : List String × EnvMap)
    (k : String) (v : JValue) (hnd : (params.map Prod.fst).Nodup)
    (hs : k ≠ "script") (ha : k ≠ "action") (hm : (k, v) ∈ params) :
    (params.foldl prepStep acc).2 ("SKILL_PARAM_" ++ k) = some (goFormat v) ∧
    (∀ c cs, (goFormat v).toList = c :: cs → c ≠ '-' →
      ∃ i, (params.foldl prepStep acc).1[i]? = some ("--" ++ k) ∧
           (params.foldl prepStep acc).1[i + 1]? = some (goFormat v)) := by
  induction params generalizing acc with
  | nil => simp at hm
  | cons hd tl ih =>
      obtain ⟨k₀, v₀⟩ := hd
      simp only [List.map_cons, List.nodup_cons] at hnd
      rw [List.foldl_cons]
      rcases List.mem_cons.mp hm with heq | hmem
      · injection heq with h1 h2
        subst h1
        subst h2
        have hk₀ : ¬ (k = "script" ∨ k = "action") := by
          rintro (h | h)
          · exact hs h
          · exact ha h
        constructor
        · rw [prep_fold_env_not_mem tl _ k hnd.1]
          simp [prepStep, if_neg hk₀, envSet]
        · intro c cs hlist hc
          obtain ⟨tail, htail⟩ := prep_fold_args_extend tl (prepStep acc (k, v))
          have hdata : (goFormat v).data = c :: cs := hlist
          have hargs : (prepStep acc (k, v)).1 = acc.1 ++ ["--" ++ k, goFormat v] := by
            simp [prepStep, if_neg hk₀, hdata, hc]
          refine ⟨acc.1.length, ?_, ?_⟩
          · rw [htail, hargs, List.append_assoc,
              List.getElem?_append_right (Nat.le_refl _)]
            simp
          · rw [htail, hargs, List.append_assoc,
              List.getElem?_append_right (by omega : acc.1.length ≤ acc.1.length + 1)]
            simp
      · by_cases h : k₀ = "script" ∨ k₀ = "action"
        · have : prepStep acc (k₀, v₀) = acc := by simp [prepStep, h]
          rw [this]
          exact ih _ hnd.2 hmem
        · exact ih _ hnd.2 hmem

/-- C8 counterexample: the parameter foo has the empty string as its
string form; the empty string does not begin with a dash, yet the
executor emits no command-line argument pair for it (the source also
requires the string form to be non-empty), so the claim as stated fails
on this input. The environment variable is still set. -/
theorem c8_empty_value_gets_no_argument :
    (goFormat (JValue.str "")).toList.head? ≠ some '-' ∧
    (prepareExecution sampleSkill [("foo", JValue.str "")]).1 = [] ∧
    (prepareExecution sampleSkill [("foo", JValue.str "")]).2 "SKILL_PARAM_foo" = some "" := by
  have hfmt : goFormat (JValue.str "") = "" := by simp [goFormat]
  have hnil : ("" : String).toList = [] := rfl
  have hkey : ("SKILL_PARAM_" ++ "foo" : String) = "SKILL_PARAM_foo" := rfl
  refine ⟨by rw [hfmt, hnil]; decide, ?_, ?_⟩
  · simp [prepareExecution, prepStep, hfmt, hnil]
  · simp [prepareExecution, prepStep, hfmt, hnil, envSet, hkey]

/-- C8 (amended): every execution parameter whose key is neither script
nor action is exposed as an environment variable named by prefixing the
key with SKILL_PARAM_, and — for every value whose string form is
non-empty and does not begin with a dash — also as a consecutive
two-element command-line pair of the dashed key and the value. -/
theorem c8_params_exposed (s : Skill) (params : ExecutionParams) (k : String) (v : JValue)
    (hnd : (params.map Prod.fst).Nodup) (hs : k ≠ "script") (ha : k ≠ "action")
    (hm : (k, v) ∈ params) :
    (prepareExecution s params).2 ("SKILL_PARAM_" ++ k) = some (goFormat v) ∧
    (∀ c cs, (goFormat v).toList = c :: cs → c ≠ '-' →
      ∃ i, (prepareExecution s params).1[i]? = some ("--" ++ k) ∧
           (prepareExecution s params).1[i + 1]? = some (goFormat v)) := by
  exact prep_fold_mem params _ k v hnd hs ha hm

/-- Concrete parameter list for the C8 witness. -/
def wParams : ExecutionParams := [("replicas", JValue.num 3)]

/-- Witness for C8 at a concrete input: the parameter replicas=3 lands
in the environment as SKILL_PARAM_replicas=3 and in the argument vector
as the consecutive pair --replicas 3. -/
theorem c8_params_exposed_witness :
    ((wParams.map Prod.fst).Nodup ∧ ("replicas" : String) ≠ "script" ∧
      ("replicas" : String) ≠ "action" ∧ ("replicas", JValue.num 3) ∈ wParams) ∧
    ((prepareExecution sampleSkill wParams).2 ("SKILL_PARAM_" ++ "replicas")
        = some (goFormat (JValue.num 3)) ∧
      (∀ c cs, (goFormat (JValue.num 3)).toList = c :: cs → c ≠ '-' →
        ∃ i, (prepareExecution sampleSkill wParams).1[i]? = some ("--" ++ "replicas") ∧
             (prepareExecution sampleSkill wParams).1[i + 1]?
               = some (goFormat (JValue.num 3)))) :=
  ⟨⟨by simp [wParams], by decide, by decide, by simp [wParams]⟩,
   c8_params_exposed sampleSkill wParams "replicas" (JValue.num 3)
     (by simp [wParams]) (by decide) (by decide) (by simp [wParams])⟩

/-! ## Execution router (router.go, config.go) -/

/-- Execution mode constants of config.go; the mode is a plain string
in the source, so arbitrary configured strings are representable. -/
def ExecutionModeDirect : String := "direct"

def ExecutionModeMCP : String := "mcp"

def ExecutionModeAuto : String := "auto"

/-- SkillConfig of config.go. -/
structure SkillConfig where
  name : String
  executionMode : String
  mcpServer : String

/-- MCPServerConfig of config.go. -/
structure MCPServerConfig where
  serverType : String
  command : String
  args : List String
  url : String
  env : List (String × String)

/-- Config of config.go: per-skill settings and named server launch
specifications, both read-only Go maps. -/
structure Config where
  skills : String → Option SkillConfig
  mcpServers : String → Option MCPServerConfig

/-- Content block of an MCP tool-call result. -/
structure McpContent where
  contentType : String
  text : String

/-- ToolCallResult of protocol.go. -/
structure ToolCallResult where
  content : List McpContent
  isError : Bool

/-- Router.convertMCPResult: success is the negation of the error flag;
text blocks are concatenated, each with a newline, into the output on
success and into the error text on failure; the remaining result fields
keep their Go zero values. -/
def convertMCPResult (result : ToolCallResult) : ExecutionResult :=
  result.content.foldl
    (fun acc c =>
      if c.contentType = "text" then
        if acc.success then { acc with output := acc.output ++ c.text ++ "\n" }
        else { acc with error := acc.error ++ c.text ++ "\n" }
      else acc)
    ⟨!result.isError, "", "", 0, 0, 0⟩

/-- Router of router.go. The direct executor is the possibly-nil
Executor interface, as a function oracle; mcpClientCall is the oracle
standing for getMCPClient followed by CallTool on the named server
(connection creation, caching, handshake and the wire exchange), which
the claims below never reach. -/
structure Router where
  directExecutor : Option (Skill → ExecutionParams → Except String ExecutionResult)
  mcpClientCall : String → String → ExecutionParams → Except String ToolCallResult
  config : Option Config
  registry : Registry

/-- Router.determineExecutionMode: a configured mode other than auto
wins; a missing config, a missing entry, or a configured auto mode all
fall back to direct. -/
def determineExecutionMode (r : Router) (skillName : String) : String :=
  match r.config with
  | some cfg =>
      match cfg.skills skillName with
      | some sc =>
          if sc.executionMode ≠ ExecutionModeAuto then sc.executionMode
          else ExecutionModeDirect
      | none => ExecutionModeDirect
  | none => ExecutionModeDirect

/-- Router.executeDirect: fails when no direct executor is wired in. -/
def executeDirect (r : Router) (sk : Skill) (params : ExecutionParams) :
    Except String ExecutionResult :=
  match r.directExecutor with
  | none => Except.error "direct executor not available"
  | some f => f sk params

/-- Router.executeMCP: the configuration checks of the source followed
by the client call oracle and result conversion. -/
def executeMCP (r : Router) (skillName : String) (params : ExecutionParams) :
    Except String ExecutionResult :=
  match r.config with
  | none => Except.error "MCP execution requires configuration"
  | some cfg =>
      match cfg.skills skillName with
      | none => Except.error ("MCP server not configured for skill: " ++ skillName)
      | some sc =>
          if sc.mcpServer = "" then
            Except.error ("MCP server not configured for skill: " ++ skillName)
          else
            match r.mcpClientCall sc.mcpServer skillName params with
            | Except.error e => Except.error e
            | Except.ok result => Except.ok (convertMCPResult result)

/-- Router.Execute: registry lookup, mode determination, then dispatch;
the auto arm tries direct and falls back to MCP on error, but
determineExecutionMode never returns auto, so that arm is dead code. -/
def routerExecute (r : Router) (skillName : String) (params : ExecutionParams) :
    Except String ExecutionResult :=
  match registryGet r.registry skillName with
  | Except.error _ => Except.error ("skill not found: " ++ skillName)
  | Except.ok sk =>
      let mode := determineExecutionMode r skillName
      if mode = ExecutionModeDirect then executeDirect r sk params
      else if mode = ExecutionModeMCP then executeMCP r skillName params
      else if mode = ExecutionModeAuto then
        match executeDirect r sk params with
        | Except.ok res => Except.ok res
        | Except.error _ => executeMCP r skillName params
      else Except.error ("unknown execution mode: " ++ mode)

/-- Router with the configured mode of one skill replaced. -/
def withSkillMode (r : Router) (skillName mode : String) : Router :=
  { r with
    config := r.config.map fun cfg =>
      ⟨fun n =>
        if n = skillName then (cfg.skills n).map fun sc => ⟨sc.name, mode, sc.mcpServer⟩
        else cfg.skills n,
       cfg.mcpServers⟩ }

/-- C3: for a skill whose configured execution mode is auto, Execute
behaves exactly as if the skill were configured direct — the same
Except value, result or error — and the protocol-forwarded path is
unreachable: the outcome does not depend on the MCP client call oracle
at all. -/
theorem c3_auto_equals_direct (r : Router) (cfg : Config) (sc : SkillConfig)
    (skillName : String) (params : ExecutionParams)
    (hcfg : r.config = some cfg) (hsc : cfg.skills skillName = some sc)
    (hmode : sc.executionMode = ExecutionModeAuto) :
    routerExecute r skillName params
      = routerExecute (withSkillMode r skillName ExecutionModeDirect) skillName params ∧
    (∀ g, routerExecute { r with mcpClientCall := g } skillName params
      = routerExecute r skillName params) := by
  have hmode₁ : determineExecutionMode r skillName = ExecutionModeDirect := by
    simp [determineExecutionMode, hcfg, hsc, hmode]
  have hmode₂ : determineExecutionMode (withSkillMode r skillName ExecutionModeDirect)
      skillName = ExecutionModeDirect := by
    simp [determineExecutionMode, withSkillMode, hcfg, hsc, ExecutionModeDirect,
      ExecutionModeAuto]
  have hmode₃ : ∀ g, determineExecutionMode { r with mcpClientCall := g } skillName
      = ExecutionModeDirect := by
    intro g
    simp [determineExecutionMode, hcfg, hsc, hmode]
  constructor
  · simp only [routerExecute, hmode₁, hmode₂, eq_self_iff_true, if_true]
    rfl
  · intro g
    simp only [routerExecute, hmode₁, hmode₃ g, eq_self_iff_true, if_true]
    rfl

/-- Concrete router for the C3 witness: one registered skill configured
with auto mode, a direct executor that succeeds, and an MCP oracle that
always fails (so any reachable fallback would change the outcome). -/
def sampleRouter : Router :=
  ⟨some fun _ _ => Except.ok ⟨true, "ok", "", 0, 1, 2⟩,
   fun _ _ _ => Except.error "server not connected",
   some ⟨fun n => if n = "kubekey" then some ⟨"kubekey", "auto", ""⟩ else none,
         fun _ => none⟩,
   ⟨fun n => if n = "kubekey" then some sampleSkill else none⟩⟩

/-- Witness for C3 at the concrete router: the hypotheses hold and the
auto-configured execution equals the direct-configured one and ignores
the MCP oracle. -/
theorem c3_auto_equals_direct_witness :
    (sampleRouter.config = some ⟨fun n => if n = "kubekey" then some ⟨"kubekey", "auto", ""⟩ else none,
         fun _ => none⟩ ∧
     (fun n => if n = "kubekey" then some (⟨"kubekey", "auto", ""⟩ : SkillConfig) else none) "kubekey"
        = some ⟨"kubekey", "auto", ""⟩ ∧
     (⟨"kubekey", "auto", ""⟩ : SkillConfig).executionMode = ExecutionModeAuto) ∧
    (routerExecute sampleRouter "kubekey" []
        = routerExecute (withSkillMode sampleRouter "kubekey" ExecutionModeDirect) "kubekey" [] ∧
     (∀ g, routerExecute { sampleRouter with mcpClientCall := g } "kubekey" []
        = routerExecute sampleRouter "kubekey" [])) :=
  ⟨⟨rfl, by simp, rfl⟩,
   c3_auto_equals_direct sampleRouter
     ⟨fun n => if n = "kubekey" then some ⟨"kubekey", "auto", ""⟩ else none, fun _ => none⟩
     ⟨"kubekey", "auto", ""⟩ "kubekey" [] rfl (by simp) rfl⟩

/-! ## Connection teardown (connection.go)

The observable state of a stdio Connection: cancellation flag, the two
pipe ends, the child process and the background read loop. The Go
operations that can fail on repetition (closing a closed pipe, killing
a finished process, waiting twice) return errors, never panic; Stop
discards those return values, which the discarded second components
below mirror. -/

/-- Observable Connection state. -/
structure ConnState where
  cancelled : Bool
  stdinClosed : Bool
  stdoutClosed : Bool
  processAlive : Bool
  readLoopRunning : Bool
deriving DecidableEq, Repr

/-- Closing a pipe end: closing an already-closed pipe reports an error
but leaves it closed. -/
def closePipe (closed : Bool) : Bool × Option String :=
  if closed then (true, some "file already closed") else (true, none)

/-- Killing the child process: killing a finished process reports an
error but the process stays finished. -/
def killProcess (alive : Bool) : Bool × Option String :=
  if alive then (false, none) else (false, some "os: process already finished")

/-- Connection.Stop: fire the cancellation, close both pipes, kill and
reap the process, then join the read loop (which the cancelled context
and closed pipe have stopped); every error of the intermediate steps is
discarded and Stop returns nil unconditionally. -/
def connStop (c : ConnState) : ConnState × Option String :=
  let stdinRes := closePipe c.stdinClosed
  let stdoutRes := closePipe c.stdoutClosed
  let killRes := killProcess c.processAlive
  (⟨true, stdinRes.1, stdoutRes.1, killRes.1, false⟩, none)

theorem connStop_const (c : ConnState) :
    connStop c = (⟨true, true, true, false, false⟩, none) := by
  cases h1 : c.stdinClosed <;> cases h2 : c.stdoutClosed <;> cases h3 : c.processAlive <;>
    simp [connStop, closePipe, killProcess, h1, h2, h3]

/-- C9: stopping a Connection twice ends in exactly the state one stop
reaches — cancelled, pipes closed, process dead, read loop joined — and
both calls return without error (the source discards the errors of the
repeated pipe-close and process-kill operations and returns nil). -/
theorem c9_stop_idempotent (c : ConnState) :
    connStop (connStop c).1 = connStop c ∧ (connStop c).2 = none := by
  rw [connStop_const c, connStop_const ⟨true, true, true, false, false⟩]
  exact ⟨rfl, rfl⟩
